import Mathlib

/-!
Verification of the process-state extraction engine of `plafond`
(`src/plafond/src/main.rs`), a tool that audits processes against their
configured resource limits.

The Rust code reads per-process pseudo-files (`comm`, `cmdline`, `fd/`,
`limits`, `status`).  The shallow embedding below abstracts the filesystem
as an explicit snapshot (`ProcFS`): each pseudo-file is either absent
(open/read error) or a list of lines, each line itself either readable or
not (mirroring the per-line `io::Result` of `BufRead::lines`).  Pure
parsing helpers (`parse_limit`, `extract_kb`, the line loops of
`parse_limits` / `parse_status`) are translated function-by-function from
the source.  Rust `u64`/`u32` values are modelled as `Nat` with explicit
`% 2 ^ 64` where the code can overflow; `str::parse::<uN>` is modelled by
`parseU64` / `parseU32` (optional leading `+`, ASCII digits, in-range).

String helpers (`splitWhitespace`, `startsWithStr`, `trimStr`,
`joinSpace`) re-implement the Rust standard-library operations used by the
source on `List Char`, so that everything reduces in the kernel.  They
agree with Rust on ASCII input; Rust's notion of whitespace additionally
contains rare non-ASCII code points that never occur in the fixed-layout
kernel files parsed here.
-/

namespace Plafond

/-- Whitespace test used throughout: space, tab, CR, LF (matches
`Char.isWhitespace`; Rust's `char::is_whitespace` on ASCII input). -/
def isWs (c : Char) : Bool :=
  c == ' ' || c == '\t' || c == '\r' || c == '\n'

/-- Is `pre` a prefix of `cs`?  Model of `str::starts_with` on char lists. -/
def listPrefix : List Char → List Char → Bool
  | [], _ => true
  | _ :: _, [] => false
  | a :: as, b :: bs => a == b && listPrefix as bs

/-- Model of Rust `str::starts_with`. -/
def startsWithStr (s pre : String) : Bool :=
  listPrefix pre.toList s.toList

/-- Accumulator-based splitter behind `splitWhitespace`.  The accumulator
holds the current (reversed) in-progress token. -/
def splitWSGo : List Char → List Char → List String
  | [], acc => if acc.isEmpty then [] else [String.mk acc.reverse]
  | c :: cs, acc =>
    if isWs c then
      if acc.isEmpty then splitWSGo cs []
      else String.mk acc.reverse :: splitWSGo cs []
    else splitWSGo cs (c :: acc)

/-- Model of Rust `str::split_whitespace`: split on runs of whitespace,
dropping empty substrings. -/
def splitWhitespace (s : String) : List String :=
  splitWSGo s.toList []

/-- Model of Rust `str::trim` (strip leading and trailing whitespace). -/
def trimStr (s : String) : String :=
  String.mk (((s.toList.dropWhile Char.isWhitespace).reverse.dropWhile
    Char.isWhitespace).reverse)

/-- Model of Rust `[&str]::join(" ")`. -/
def joinSpace : List String → String
  | [] => ""
  | [x] => x
  | x :: xs => x ++ " " ++ joinSpace xs

/-- Numeric value of an ASCII digit string (valid digits assumed). -/
def digitsToNat (cs : List Char) : Nat :=
  cs.foldl (fun a c => a * 10 + (c.toNat - 48)) 0

/-- Model of Rust `str::parse::<u64>()`: optional leading `+`, then one or
more ASCII digits, value below `2 ^ 64`; anything else is a parse error. -/
def parseU64 (s : String) : Option Nat :=
  let cs := if startsWithStr s "+" then s.toList.drop 1 else s.toList
  if cs.isEmpty then none
  else if cs.all Char.isDigit then
    let n := digitsToNat cs
    if n < 2 ^ 64 then some n else none
  else none

/-- Model of Rust `str::parse::<u32>()`. -/
def parseU32 (s : String) : Option Nat :=
  let cs := if startsWithStr s "+" then s.toList.drop 1 else s.toList
  if cs.isEmpty then none
  else if cs.all Char.isDigit then
    let n := digitsToNat cs
    if n < 2 ^ 32 then some n else none
  else none

/-- `u64::MAX`. -/
def U64MAX : Nat := 2 ^ 64 - 1

/-- Embedding of `parse_limit` (main.rs:315-321): the token `"unlimited"`
maps to `u64::MAX`; any other token is parsed as a `u64`, defaulting to 0
when malformed (`unwrap_or(0)`). -/
def parse_limit (s : String) : Nat :=
  if s = "unlimited" then U64MAX else (parseU64 s).getD 0

/-- Association-list model of `HashMap::insert` (replace any existing
binding for the key, result looked up with `List.lookup`). -/
def insertAssoc (m : List (String × (Nat × Nat))) (k : String) (v : Nat × Nat) :
    List (String × (Nat × Nat)) :=
  (k, v) :: m.filter (fun e => e.1 != k)

/-- Accumulator of the `parse_limits` loop (main.rs:132-135): the rlimits
map and the three singled-out soft/hard pairs, all initially `(0, 0)`. -/
structure LimitsAcc where
  rlimits : List (String × (Nat × Nat))
  fd_limits : Nat × Nat
  mem_limits : Nat × Nat
  thread_limits : Nat × Nat
deriving DecidableEq

def limitsInit : LimitsAcc := ⟨[], (0, 0), (0, 0), (0, 0)⟩

/-- Name column of a limits line (main.rs:148): everything before the last
three whitespace-separated columns, re-joined with single spaces. -/
def lineName (l : String) : String :=
  let parts := splitWhitespace l
  joinSpace (parts.take (parts.length - 3))

/-- Soft-limit column of a limits line (main.rs:149): the third-last
whitespace-separated column, run through `parse_limit`. -/
def lineSoft (l : String) : Nat :=
  let parts := splitWhitespace l
  parse_limit (parts.getD (parts.length - 3) "")

/-- Hard-limit column of a limits line (main.rs:150): the second-last
whitespace-separated column, run through `parse_limit`. -/
def lineHard (l : String) : Nat :=
  let parts := splitWhitespace l
  parse_limit (parts.getD (parts.length - 2) "")

/-- One iteration of the `parse_limits` line loop (main.rs:144-162).
`none` models a line whose read failed (`if let Ok(l)` skips it).  A line
with at least four whitespace-separated columns contributes: its name is
everything before the last three columns joined by single spaces, soft and
hard are parsed from the third- and second-last columns, the three
singled-out pairs are updated on an exact name match, and the pair is
inserted into the rlimits map. -/
def limitsStep (st : LimitsAcc) (line : Option String) : LimitsAcc :=
  match line with
  | none => st
  | some l =>
    if 4 ≤ (splitWhitespace l).length then
      let name := lineName l
      let soft := lineSoft l
      let hard := lineHard l
      let st1 :=
        if name = "Max open files" then { st with fd_limits := (soft, hard) }
        else if name = "Max address space" then { st with mem_limits := (soft, hard) }
        else if name = "Max processes" then { st with thread_limits := (soft, hard) }
        else st
      { st1 with rlimits := insertAssoc st1.rlimits name (soft, hard) }
    else st

/-- Embedding of `ProcStats::parse_limits` (main.rs:124-166).  The input is
the limits pseudo-file: `none` when `File::open` fails (the only error
path), otherwise the list of line-read results.  The first line (the
header) is skipped (`skip(1)`). -/
def parse_limits (file : Option (List (Option String))) :
    Except String LimitsAcc :=
  match file with
  | none => .error "open failed"
  | some lines => .ok ((lines.drop 1).foldl limitsStep limitsInit)

/-- Embedding of `extract_kb` (main.rs:323-331): second whitespace-separated
token parsed as `u64` and multiplied by 1024 (kiB to bytes; `u64`
multiplication, hence the `% 2 ^ 64`), 0 when missing or malformed. -/
def extract_kb (line : String) : Nat :=
  match (splitWhitespace line).get? 1 with
  | some val =>
    match parseU64 val with
    | some n => n * 1024 % 2 ^ 64
    | none => 0
  | none => 0

/-- Accumulator of the `parse_status` loop (main.rs:174-177), all fields
initially 0. -/
structure StatusAcc where
  vm_rss : Nat
  vm_size : Nat
  vm_locked : Nat
  threads : Nat
deriving DecidableEq

def statusInit : StatusAcc := ⟨0, 0, 0, 0⟩

/-- Thread-count extraction of the `Threads:` branch (main.rs:188-192):
second whitespace token (or `"0"` when missing) parsed as `u32`,
defaulting to 0. -/
def parseThreads (l : String) : Nat :=
  (parseU32 ((splitWhitespace l).getD 1 "0")).getD 0

/-- One iteration of the `parse_status` line loop (main.rs:179-195):
key-prefix dispatch via `starts_with`, unreadable lines skipped, lines with
no recognized key ignored. -/
def statusStep (st : StatusAcc) (line : Option String) : StatusAcc :=
  match line with
  | none => st
  | some l =>
    if startsWithStr l "VmRSS:" then { st with vm_rss := extract_kb l }
    else if startsWithStr l "VmSize:" then { st with vm_size := extract_kb l }
    else if startsWithStr l "VmLck:" then { st with vm_locked := extract_kb l }
    else if startsWithStr l "Threads:" then { st with threads := parseThreads l }
    else st

/-- Embedding of `ProcStats::parse_status` (main.rs:168-198): fails exactly
when the status pseudo-file cannot be opened; otherwise folds the line
loop over all lines. -/
def parse_status (file : Option (List (Option String))) :
    Except String StatusAcc :=
  match file with
  | none => .error "open failed"
  | some lines => .ok (lines.foldl statusStep statusInit)

/-- Snapshot of one process's pseudo-files, the explicit-state image of the
filesystem reads performed by `ProcStats::gather`.  `none` everywhere means
the corresponding open/read failed; a `none` inside a line list means that
single line failed to read. -/
structure ProcFS where
  comm : Option String
  cmdline : Option String
  fdDir : Option Nat
  limits : Option (List (Option String))
  status : Option (List (Option String))

/-- Embedding of `ProcStats::read_name` (main.rs:106-111): contents of
`comm`, trimmed; error when unreadable. -/
def read_name (fs : ProcFS) : Except String String :=
  match fs.comm with
  | some s => .ok (trimStr s)
  | none => .error "read error"

/-- Modelled from the spec: `IdentityReader` (§4.1) also reads the full
command line, returning a distinct error when it cannot be read.  The
source's `ProcStats::read_cmdline` (main.rs:113-115) is an unfinished
`Ok(todo!())` stub (see `read_cmdline_impl` below for the faithful
embedding of that stub), so the intended reader is modelled here from the
spec's words. -/
def read_cmdline (fs : ProcFS) : Except String String :=
  match fs.cmdline with
  | some s => .ok s
  | none => .error "read error"

/-- Embedding of `ProcStats::count_open_fds` (main.rs:117-122): number of
entries of the `fd` directory, error when it cannot be read. -/
def count_open_fds (fs : ProcFS) : Except String Nat :=
  match fs.fdDir with
  | some n => .ok n
  | none => .error "read error"

/-- Embedding of the `ProcStats` record (main.rs:27-52). -/
structure ProcStats where
  pid : Nat
  name : String
  cmd : String
  open_fds : Nat
  fd_soft_limit : Nat
  fd_hard_limit : Nat
  vm_rss : Nat
  vm_size : Nat
  vm_locked : Nat
  mem_soft_limit : Option Nat
  mem_hard_limit : Option Nat
  threads : Nat
  threads_soft_limit : Option Nat
  threads_hard_limit : Option Nat
  rlimits : List (String × (Nat × Nat))
deriving DecidableEq

/-- Embedding of `ProcStats::gather` (main.rs:55-104) over a filesystem
snapshot, with the cmdline read taken from the spec-modelled
`read_cmdline` (the source's stub is embedded separately as
`gather_impl`).  The error strings and the early returns mirror the four
`match`es of the source; a failing fd count is replaced by 0; the limit
pairs from `parse_limits` are wrapped in `Some` unconditionally
(main.rs:94-98). -/
def gather (pid : Nat) (fs : ProcFS) : Except String ProcStats :=
  match read_name fs with
  | .error e => .error ("Failed to read process name: " ++ e)
  | .ok name =>
    match read_cmdline fs with
    | .error e => .error ("Failed to read cmdline: " ++ e)
    | .ok cmd =>
      let open_fds := match count_open_fds fs with
        | .ok n => n
        | .error _ => 0
      match parse_limits fs.limits with
      | .error e => .error ("Failed to parse limits: " ++ e)
      | .ok lims =>
        match parse_status fs.status with
        | .error e => .error ("Failed to parse status: " ++ e)
        | .ok st =>
          .ok { pid := pid
                name := name
                cmd := cmd
                open_fds := open_fds
                fd_soft_limit := lims.fd_limits.1
                fd_hard_limit := lims.fd_limits.2
                mem_soft_limit := some lims.mem_limits.1
                mem_hard_limit := some lims.mem_limits.2
                threads := st.threads
                threads_soft_limit := some lims.thread_limits.1
                threads_hard_limit := some lims.thread_limits.2
                vm_rss := st.vm_rss
                vm_size := st.vm_size
                vm_locked := st.vm_locked
                rlimits := lims.rlimits }

/-- Outcome of running a fallible Rust function, with divergence by
`panic`/`todo` kept distinct from an `Err` return. -/
inductive ROutcome (α : Type) where
  | ok (a : α)
  | err (e : String)
  | panicked
deriving DecidableEq

/-- Faithful embedding of `ProcStats::read_cmdline` as written
(main.rs:113-115): the body is `Ok(todo!())`, and `todo!()` panics before
the `Ok` is ever built, for every input. -/
def read_cmdline_impl (_fs : ProcFS) : ROutcome String :=
  .panicked

/-- Faithful embedding of `ProcStats::gather` (main.rs:55-104) with the
cmdline reader as actually written: identical to `gather` except that the
cmdline step runs `read_cmdline_impl`, whose panic propagates. -/
def gather_impl (pid : Nat) (fs : ProcFS) : ROutcome ProcStats :=
  match read_name fs with
  | .error e => .err ("Failed to read process name: " ++ e)
  | .ok name =>
    match read_cmdline_impl fs with
    | .panicked => .panicked
    | .err e => .err ("Failed to read cmdline: " ++ e)
    | .ok cmd =>
      let open_fds := match count_open_fds fs with
        | .ok n => n
        | .error _ => 0
      match parse_limits fs.limits with
      | .error e => .err ("Failed to parse limits: " ++ e)
      | .ok lims =>
        match parse_status fs.status with
        | .error e => .err ("Failed to parse status: " ++ e)
        | .ok st =>
          .ok { pid := pid
                name := name
                cmd := cmd
                open_fds := open_fds
                fd_soft_limit := lims.fd_limits.1
                fd_hard_limit := lims.fd_limits.2
                mem_soft_limit := some lims.mem_limits.1
                mem_hard_limit := some lims.mem_limits.2
                threads := st.threads
                threads_soft_limit := some lims.thread_limits.1
                threads_hard_limit := some lims.thread_limits.2
                vm_rss := st.vm_rss
                vm_size := st.vm_size
                vm_locked := st.vm_locked
                rlimits := lims.rlimits }

/-- Severity levels of the `UsageEvaluator` (spec §3, §4.7). -/
inductive Severity where
  | ok
  | warning
  | critical
  | unknown
deriving DecidableEq

/-- Modelled from the spec: `UsageEvaluator` (§4.7) — absent from the
source, whose inspection functions are `unimplemented!()` stubs
(main.rs:291-308).  For a dimension with a concrete usage and a concrete
hard limit, compute `usage / hard_limit` and classify: critical at or above
9/10, warning at or above 7/10, else ok (exact rational comparison, no
rounding); when the hard limit is absent or the usage could not be
determined, classify as unknown. -/
def classify (usage : Option Nat) (hard : Option Nat) : Severity :=
  match usage, hard with
  | some u, some h =>
    if (9 : ℚ) / 10 ≤ (u : ℚ) / (h : ℚ) then .critical
    else if (7 : ℚ) / 10 ≤ (u : ℚ) / (h : ℚ) then .warning
    else .ok
  | _, _ => .unknown

/-- Modelled from the spec: `InspectionDriver` list mode (§4.8) — absent
from the source, where `inspect_pid_list` (main.rs:305-308) is an
`unimplemented!()` stub.  Gather each requested pid independently (the
per-pid gather outcome is the explicit input `g`), record failures as
entries rather than dropping them, and order the output by ascending pid. -/
def inspect_pid_list (g : Nat → Except String ProcStats) (pids : List Nat) :
    List (Nat × Except String ProcStats) :=
  (pids.insertionSort (· ≤ ·)).map (fun p => (p, g p))

/-- Children of `p` in an enumeration snapshot of `(pid, ppid)` pairs. -/
def children (snap : List (Nat × Nat)) (p : Nat) : List Nat :=
  (snap.filter (fun e => e.2 == p)).map Prod.fst

/-- Modelled from the spec: the traversal loop of `ProcessTreeBuilder`
(§4.6) — absent from the source, where `contruct_ptree_for_ppid`
(main.rs:296-298) is an `unimplemented!()` stub.  Worklist traversal with
a visited-set: each step dequeues one pid; an already-visited pid is
dropped (the cycle guard), a new pid is visited and its children enqueued.
The `fuel` argument counts loop iterations; `build_ptree` supplies enough
fuel for the traversal to drain its queue. -/
def ptreeGo (snap : List (Nat × Nat)) :
    Nat → List Nat → List Nat → List Nat
  | 0, visited, _ => visited.reverse
  | _ + 1, visited, [] => visited.reverse
  | fuel + 1, visited, p :: rest =>
    if p ∈ visited then ptreeGo snap fuel visited rest
    else ptreeGo snap fuel (p :: visited) (rest ++ children snap p)

/-- Modelled from the spec: `ProcessTreeBuilder` (§4.6) applied to an
enumeration snapshot and a root pid: the pids visited by the traversal
starting from the root.  One unit of fuel per possible queue entry (the
root plus at most one child occurrence per snapshot edge) is enough; the
`ptree_terminates` theorem proves that additional fuel never changes the
result. -/
def build_ptree (snap : List (Nat × Nat)) (root : Nat) : List Nat :=
  ptreeGo snap (snap.length + 1) [] [root]

/-- Concrete snapshot with every pseudo-file readable except the fd
directory. -/
def fsAllOk : ProcFS :=
  { comm := some "bash\n"
    cmdline := some "/bin/bash"
    fdDir := none
    limits := some [some "Limit                     Soft Limit           Hard Limit           Units",
                    some "Max open files            1024                 4096                 files"]
    status := some [some "VmRSS:\t   2048 kB", some "Threads:\t5"] }

/-- Concrete snapshot whose `comm` pseudo-file is unreadable. -/
def fsNoComm : ProcFS :=
  { fsAllOk with comm := none }

/-- C3: `parse_limit` maps the exact token `"unlimited"` to `u64::MAX`
(never 0), parses any other token as an unsigned 64-bit integer, and
yields 0 for a malformed token; being a total function it raises no
error. -/
theorem parse_limit_contract :
    (parse_limit "unlimited" = 2 ^ 64 - 1 ∧ parse_limit "unlimited" ≠ 0)
    ∧ (∀ s n, s ≠ "unlimited" → parseU64 s = some n → parse_limit s = n)
    ∧ (∀ s, s ≠ "unlimited" → parseU64 s = none → parse_limit s = 0) := by
  refine ⟨⟨rfl, by decide⟩, ?_, ?_⟩
  · intro s n hs hn
    simp [parse_limit, hs, hn]
  · intro s hs hn
    simp [parse_limit, hs, hn]

/-- Witness for `parse_limit_contract` at the concrete tokens `"4096"`
(a plain integer) and `"12x"` (malformed). -/
theorem parse_limit_contract_witness :
    parse_limit "4096" = 4096 ∧ parse_limit "12x" = 0 :=
  ⟨parse_limit_contract.2.1 "4096" 4096 (by decide) (by decide),
   parse_limit_contract.2.2 "12x" (by decide) (by decide)⟩

/-- C7: `parse_limits` returns an error exactly when the limits
pseudo-file cannot be opened (`file = none`); for any open file, whatever
its lines (unreadable, short, or malformed), it returns `Ok`. -/
theorem parse_limits_error_iff :
    ∀ file : Option (List (Option String)),
      ((∃ e, parse_limits file = .error e) ↔ file = none)
      ∧ ∀ lines, ∃ st, parse_limits (some lines) = .ok st := by
  intro file
  constructor
  · cases file <;> simp [parse_limits]
  · intro lines
    exact ⟨_, rfl⟩

/-- C10 (faithful embedding): `gather` as written never returns `Ok`:
whenever the name read succeeds it panics, because `read_cmdline`'s body
is `Ok(todo!())`. -/
theorem gather_impl_panics_on_readable_name :
    (∀ pid fs, fs.comm.isSome = true → gather_impl pid fs = .panicked)
    ∧ ∀ pid fs r, gather_impl pid fs ≠ .ok r := by
  constructor
  · intro pid fs h
    obtain ⟨c, hc⟩ := Option.isSome_iff_exists.mp h
    simp [gather_impl, read_name, hc, read_cmdline_impl]
  · intro pid fs r
    cases hc : fs.comm <;> simp [gather_impl, read_name, hc, read_cmdline_impl]

/-- Witness for `gather_impl_panics_on_readable_name` at a snapshot where
every pseudo-file is readable. -/
theorem gather_impl_panics_witness :
    gather_impl 1 fsAllOk = .panicked :=
  gather_impl_panics_on_readable_name.1 1 fsAllOk rfl

/-- C1: `gather` returns an error exactly when one of the identity reads
(name, cmdline), the limits parse, or the status parse fails; the error
message identifies the failing sub-extraction; and a failing open-fd count
never fails the gather — the record is produced with `open_fds = 0`. -/
theorem gather_error_contract (pid : Nat) (fs : ProcFS) :
    ((∃ r, gather pid fs = .ok r) ↔
      (fs.comm.isSome = true ∧ fs.cmdline.isSome = true ∧
       fs.limits.isSome = true ∧ fs.status.isSome = true))
    ∧ (∀ e, gather pid fs = .error e →
        (fs.comm = none ∧ startsWithStr e "Failed to read process name" = true) ∨
        (fs.cmdline = none ∧ startsWithStr e "Failed to read cmdline" = true) ∨
        (fs.limits = none ∧ startsWithStr e "Failed to parse limits" = true) ∨
        (fs.status = none ∧ startsWithStr e "Failed to parse status" = true))
    ∧ (fs.fdDir = none → ∀ r, gather pid fs = .ok r → r.open_fds = 0) := by
  obtain ⟨c, cl, fd, lim, st⟩ := fs
  cases c <;> cases cl <;> cases lim <;> cases st <;> cases fd <;>
    refine ⟨⟨?_, ?_⟩, ?_, ?_⟩ <;>
    intros <;>
    try simp_all [gather, read_name, read_cmdline, count_open_fds,
      parse_limits, parse_status]
  all_goals subst_vars
  all_goals first
    | rfl
    | decide

/-- Witness for `gather_error_contract`: at `fsAllOk` (all pseudo-files
readable, fd directory unreadable) the gather succeeds with
`open_fds = 0`; at `fsNoComm` the error names the process-name read. -/
theorem gather_error_contract_witness :
    (gather 1 fsAllOk).isOk = true
    ∧ Except.map ProcStats.open_fds (gather 1 fsAllOk) = .ok 0
    ∧ ((fsNoComm.comm = none ∧
         startsWithStr "Failed to read process name: read error"
           "Failed to read process name" = true) ∨
       (fsNoComm.cmdline = none ∧
         startsWithStr "Failed to read process name: read error"
           "Failed to read cmdline" = true) ∨
       (fsNoComm.limits = none ∧
         startsWithStr "Failed to read process name: read error"
           "Failed to parse limits" = true) ∨
       (fsNoComm.status = none ∧
         startsWithStr "Failed to read process name: read error"
           "Failed to parse status" = true)) := by
  obtain ⟨r, hr⟩ := (gather_error_contract 1 fsAllOk).1.mpr ⟨rfl, rfl, rfl, rfl⟩
  have hofd := (gather_error_contract 1 fsAllOk).2.2 rfl r hr
  refine ⟨by rw [hr]; rfl, by rw [hr, Except.map, hofd], ?_⟩
  exact (gather_error_contract 1 fsNoComm).2.1 _ rfl

lemma lookup_filter_ne (m : List (String × (Nat × Nat))) (k k' : String)
    (h : k' ≠ k) :
    List.lookup k' (m.filter (fun e => e.1 != k)) = List.lookup k' m := by
  induction m with
  | nil => rfl
  | cons e es ih =>
    by_cases he : e.1 = k
    · have hk' : (k' == e.1) = false := beq_false_of_ne (he ▸ h)
      simp [List.filter_cons, he, List.lookup, hk', beq_false_of_ne h, ih]
    · have hkeep : (e.1 != k) = true := by simp [bne_iff_ne, he]
      simp only [List.filter_cons, hkeep, if_true]
      cases hke : k' == e.1 <;> simp [List.lookup, hke, ih]

lemma lookup_insertAssoc_self (m : List (String × (Nat × Nat))) (k : String)
    (v : Nat × Nat) : List.lookup k (insertAssoc m k v) = some v := by
  simp [insertAssoc, List.lookup]

lemma lookup_insertAssoc_ne (m : List (String × (Nat × Nat))) (k k' : String)
    (v : Nat × Nat) (h : k' ≠ k) :
    List.lookup k' (insertAssoc m k v) = List.lookup k' m := by
  simp [insertAssoc, List.lookup, beq_false_of_ne h, lookup_filter_ne m k k' h]

lemma mem_keys_insertAssoc (m : List (String × (Nat × Nat))) (k : String)
    (v : Nat × Nat) : k ∈ (insertAssoc m k v).map Prod.fst := by
  simp [insertAssoc]

lemma mem_keys_insertAssoc_of_mem (m : List (String × (Nat × Nat)))
    (k k' : String) (v : Nat × Nat) (h : k' ∈ m.map Prod.fst) :
    k' ∈ (insertAssoc m k v).map Prod.fst := by
  by_cases hk : k' = k
  · simp [insertAssoc, hk]
  · obtain ⟨e, he, rfl⟩ := List.mem_map.mp h
    exact List.mem_map.mpr ⟨e, List.mem_cons_of_mem _
      (List.mem_filter.mpr ⟨he, by simpa [bne_iff_ne] using hk⟩), rfl⟩

lemma limitsStep_rlimits (st : LimitsAcc) (l : String)
    (h : 4 ≤ (splitWhitespace l).length) :
    (limitsStep st (some l)).rlimits =
      insertAssoc st.rlimits (lineName l) (lineSoft l, lineHard l) := by
  simp only [limitsStep, if_pos h]
  split_ifs <;> rfl

lemma limitsStep_fd (st : LimitsAcc) (l : String)
    (h : 4 ≤ (splitWhitespace l).length) :
    (limitsStep st (some l)).fd_limits =
      (if lineName l = "Max open files" then (lineSoft l, lineHard l)
       else st.fd_limits) := by
  simp only [limitsStep, if_pos h]
  split_ifs <;> simp_all

lemma limitsStep_mem (st : LimitsAcc) (l : String)
    (h : 4 ≤ (splitWhitespace l).length) :
    (limitsStep st (some l)).mem_limits =
      (if lineName l = "Max address space" then (lineSoft l, lineHard l)
       else st.mem_limits) := by
  simp only [limitsStep, if_pos h]
  split_ifs <;> simp_all

lemma limitsStep_thread (st : LimitsAcc) (l : String)
    (h : 4 ≤ (splitWhitespace l).length) :
    (limitsStep st (some l)).thread_limits =
      (if lineName l = "Max processes" then (lineSoft l, lineHard l)
       else st.thread_limits) := by
  simp only [limitsStep, if_pos h]
  split_ifs <;> simp_all

lemma limitsStep_short (st : LimitsAcc) (l : String)
    (h : (splitWhitespace l).length < 4) :
    limitsStep st (some l) = st := by
  simp [limitsStep, Nat.not_le.mpr h]

lemma keys_foldl_limitsStep (lines : List (Option String)) (st : LimitsAcc)
    (k : String) (h : k ∈ st.rlimits.map Prod.fst) :
    k ∈ (List.foldl limitsStep st lines).rlimits.map Prod.fst := by
  induction lines generalizing st with
  | nil => exact h
  | cons ln ls ih =>
    rw [List.foldl_cons]
    apply ih
    cases ln with
    | none => exact h
    | some l =>
      by_cases h4 : 4 ≤ (splitWhitespace l).length
      · rw [limitsStep_rlimits _ _ h4]
        exact mem_keys_insertAssoc_of_mem _ _ _ _ h
      · rw [limitsStep_short _ _ (Nat.lt_of_not_le h4)]
        exact h

lemma line_recorded (lines : List (Option String)) (st : LimitsAcc)
    (l : String) (hl : some l ∈ lines) (h4 : 4 ≤ (splitWhitespace l).length) :
    lineName l ∈ (List.foldl limitsStep st lines).rlimits.map Prod.fst := by
  induction lines generalizing st with
  | nil => cases hl
  | cons ln ls ih =>
    rw [List.foldl_cons]
    rcases List.mem_cons.mp hl with heq | hmem
    · subst heq
      apply keys_foldl_limitsStep
      rw [limitsStep_rlimits _ _ h4]
      exact mem_keys_insertAssoc _ _ _
    · exact ih _ hmem

/-- C4: for every limits line with at least four whitespace-delimited
columns, the step records the line's name (everything before the last
three columns, multi-word names intact) with the parsed soft/hard pair
from the third- and second-last columns in the rlimits map (leaving other
keys untouched), updates each of the three singled-out pairs exactly when
the name matches the respective exact case-sensitive string, ignores
shorter lines, records every well-formed data line of a parsed table, and
handles the spec's example line as prescribed. -/
theorem parse_limits_line_contract :
    (∀ st l, 4 ≤ (splitWhitespace l).length →
        List.lookup (lineName l) (limitsStep st (some l)).rlimits =
          some (lineSoft l, lineHard l)
        ∧ (∀ k, k ≠ lineName l →
            List.lookup k (limitsStep st (some l)).rlimits =
              List.lookup k st.rlimits)
        ∧ (limitsStep st (some l)).fd_limits =
            (if lineName l = "Max open files" then (lineSoft l, lineHard l)
             else st.fd_limits)
        ∧ (limitsStep st (some l)).mem_limits =
            (if lineName l = "Max address space" then (lineSoft l, lineHard l)
             else st.mem_limits)
        ∧ (limitsStep st (some l)).thread_limits =
            (if lineName l = "Max processes" then (lineSoft l, lineHard l)
             else st.thread_limits))
    ∧ (∀ st l, (splitWhitespace l).length < 4 → limitsStep st (some l) = st)
    ∧ (∀ lines st l, parse_limits (some lines) = .ok st →
        some l ∈ lines.drop 1 → 4 ≤ (splitWhitespace l).length →
        lineName l ∈ st.rlimits.map Prod.fst)
    ∧ lineName "Max open files     1024                 4096                 files" =
        "Max open files"
    ∧ parse_limits (some [some "Limit Soft Hard Units",
        some "Max open files     1024                 4096                 files"]) =
        .ok ⟨[("Max open files", (1024, 4096))], (1024, 4096), (0, 0), (0, 0)⟩ := by
  refine ⟨?_, limitsStep_short, ?_, by decide, by rfl⟩
  · intro st l h4
    refine ⟨?_, ?_, limitsStep_fd st l h4, limitsStep_mem st l h4,
      limitsStep_thread st l h4⟩
    · rw [limitsStep_rlimits st l h4]
      exact lookup_insertAssoc_self _ _ _
    · intro k hk
      rw [limitsStep_rlimits st l h4]
      exact lookup_insertAssoc_ne _ _ _ _ hk
  · intro lines st l hok hl h4
    have : st = (lines.drop 1).foldl limitsStep limitsInit := by
      simpa [parse_limits] using hok.symm
    subst this
    exact line_recorded _ _ _ hl h4

/-- Witness for `parse_limits_line_contract` at the spec's example line and
a short line. -/
theorem parse_limits_line_contract_witness :
    List.lookup
        (lineName "Max open files     1024                 4096                 files")
        (limitsStep limitsInit
          (some "Max open files     1024                 4096                 files")).rlimits =
      some (lineSoft "Max open files     1024                 4096                 files",
            lineHard "Max open files     1024                 4096                 files")
    ∧ limitsStep limitsInit (some "too short") = limitsInit :=
  ⟨(parse_limits_line_contract.1 limitsInit _ (by decide)).1,
   parse_limits_line_contract.2.1 limitsInit "too short" (by decide)⟩

/-- A limits table (line list, header included) contains a well-formed
data line whose name column is `name`. -/
def hasLimitLine (lines : List (Option String)) (name : String) : Prop :=
  ∃ l, some l ∈ lines.drop 1 ∧ 4 ≤ (splitWhitespace l).length ∧
    lineName l = name

lemma foldl_mem_limits_invariant (lines : List (Option String))
    (st : LimitsAcc)
    (h : ∀ l, some l ∈ lines → 4 ≤ (splitWhitespace l).length →
      lineName l ≠ "Max address space") :
    (List.foldl limitsStep st lines).mem_limits = st.mem_limits := by
  induction lines generalizing st with
  | nil => rfl
  | cons ln ls ih =>
    rw [List.foldl_cons,
      ih _ (fun l hl h4 => h l (List.mem_cons_of_mem _ hl) h4)]
    cases ln with
    | none => rfl
    | some l =>
      by_cases h4 : 4 ≤ (splitWhitespace l).length
      · rw [limitsStep_mem _ _ h4,
          if_neg (h l (List.mem_cons_self _ _) h4)]
      · rw [limitsStep_short _ _ (Nat.lt_of_not_le h4)]

lemma foldl_thread_limits_invariant (lines : List (Option String))
    (st : LimitsAcc)
    (h : ∀ l, some l ∈ lines → 4 ≤ (splitWhitespace l).length →
      lineName l ≠ "Max processes") :
    (List.foldl limitsStep st lines).thread_limits = st.thread_limits := by
  induction lines generalizing st with
  | nil => rfl
  | cons ln ls ih =>
    rw [List.foldl_cons,
      ih _ (fun l hl h4 => h l (List.mem_cons_of_mem _ hl) h4)]
    cases ln with
    | none => rfl
    | some l =>
      by_cases h4 : 4 ≤ (splitWhitespace l).length
      · rw [limitsStep_thread _ _ h4,
          if_neg (h l (List.mem_cons_self _ _) h4)]
      · rw [limitsStep_short _ _ (Nat.lt_of_not_le h4)]

/-- C2 (amended): in every `ProcStats` record produced by `gather` the
memory and thread limit fields are always populated with `some`; when the
corresponding limit line is missing from the limits table they hold
`some 0` (the parser's silent default), not `none`. -/
theorem gather_limit_fields_always_some (pid : Nat) (fs : ProcFS)
    (r : ProcStats) (h : gather pid fs = .ok r) :
    r.mem_soft_limit.isSome = true ∧ r.mem_hard_limit.isSome = true
    ∧ r.threads_soft_limit.isSome = true ∧ r.threads_hard_limit.isSome = true
    ∧ (∀ lines, fs.limits = some lines →
        ¬ hasLimitLine lines "Max address space" →
        r.mem_soft_limit = some 0 ∧ r.mem_hard_limit = some 0)
    ∧ (∀ lines, fs.limits = some lines →
        ¬ hasLimitLine lines "Max processes" →
        r.threads_soft_limit = some 0 ∧ r.threads_hard_limit = some 0) := by
  obtain ⟨c, cl, fd, lim, st⟩ := fs
  cases hc : c <;> cases hcl : cl <;> cases hlim : lim <;> cases hst : st <;>
    subst_vars <;>
    simp_all [gather, read_name, read_cmdline, count_open_fds, parse_limits,
      parse_status]
  rename_i lines statusLines
  obtain ⟨rfl⟩ := h
  refine ⟨rfl, rfl, rfl, rfl, ?_, ?_⟩
  · intro hno
    have : ∀ l, some l ∈ lines.drop 1 → 4 ≤ (splitWhitespace l).length →
        lineName l ≠ "Max address space" := by
      intro l hl h4 hname
      exact hno ⟨l, hl, h4, hname⟩
    rw [show lines.tail = lines.drop 1 from (List.drop_one lines).symm,
      foldl_mem_limits_invariant _ _ this]
    exact ⟨rfl, rfl⟩
  · intro hno
    have : ∀ l, some l ∈ lines.drop 1 → 4 ≤ (splitWhitespace l).length →
        lineName l ≠ "Max processes" := by
      intro l hl h4 hname
      exact hno ⟨l, hl, h4, hname⟩
    rw [show lines.tail = lines.drop 1 from (List.drop_one lines).symm,
      foldl_thread_limits_invariant _ _ this]
    exact ⟨rfl, rfl⟩

/-- Witness for `gather_limit_fields_always_some` at the concrete snapshot
`fsAllOk`, whose limits table has no "Max address space" line. -/
theorem gather_limit_fields_always_some_witness :
    Except.map ProcStats.mem_soft_limit (gather 1 fsAllOk) = .ok (some 0) := by
  have h : gather 1 fsAllOk = .ok ((gather 1 fsAllOk).toOption.get (by rfl)) := by rfl
  have := (gather_limit_fields_always_some 1 fsAllOk _ h).2.2.2.2.1
    (fsAllOk.limits.getD []) rfl
  rw [h, Except.map]
  have hmem := this (by
    rintro ⟨l, hl, h4, hname⟩
    simp [fsAllOk] at hl
    subst hl
    revert hname
    decide)
  rw [hmem.1]

/-- The name column of a (possibly unreadable) limits line, `none` when the
line is unreadable or has fewer than four columns. -/
def lineNameOf (l : Option String) : Option String :=
  match l with
  | none => none
  | some s =>
    if 4 ≤ (splitWhitespace s).length then some (lineName s) else none

/-- Counterexample to C2 as stated: a snapshot whose limits table contains
only a "Max open files" line — no "Max address space" (or "Max processes")
line — yet `gather` populates the memory limit fields with `some 0`, the
silently-defaulted zero, not `none`. -/
theorem gather_missing_mem_line_yields_some_zero :
    ((fsAllOk.limits.getD []).drop 1).filterMap lineNameOf =
      ["Max open files"]
    ∧ Except.map ProcStats.mem_soft_limit (gather 1 fsAllOk) = .ok (some 0)
    ∧ Except.map ProcStats.mem_hard_limit (gather 1 fsAllOk) = .ok (some 0)
    ∧ Except.map ProcStats.threads_soft_limit (gather 1 fsAllOk) =
        .ok (some 0)
    ∧ some (0 : Nat) ≠ none := by
  refine ⟨by rfl, by rfl, by rfl, by rfl, by decide⟩

lemma listPrefix_getElem (pre cs : List Char) (h : listPrefix pre cs = true) :
    ∀ i, i < pre.length → cs[i]? = pre[i]? := by
  induction pre generalizing cs with
  | nil =>
    intro i hi
    simp at hi
  | cons a as ih =>
    cases cs with
    | nil => simp [listPrefix] at h
    | cons b bs =>
      intro i hi
      simp only [listPrefix, Bool.and_eq_true, beq_iff_eq] at h
      obtain ⟨rfl, h2⟩ := h
      cases i with
      | zero => simp
      | succ j =>
        simp only [List.getElem?_cons_succ]
        exact ih bs h2 j (Nat.lt_of_succ_lt_succ hi)

lemma prefixes_exclusive (p q l : String) (i : Nat)
    (hip : i < p.toList.length) (hiq : i < q.toList.length)
    (hne : p.toList[i]? ≠ q.toList[i]?)
    (h : startsWithStr l p = true) : startsWithStr l q = false := by
  by_contra hq
  rw [Bool.not_eq_false] at hq
  have h1 := listPrefix_getElem _ _ h i hip
  have h2 := listPrefix_getElem _ _ hq i hiq
  exact hne (h1.symm.trans h2)

lemma statusStep_rss_unchanged (st : StatusAcc) (ln : Option String)
    (h : ∀ l, ln = some l → startsWithStr l "VmRSS:" = false) :
    (statusStep st ln).vm_rss = st.vm_rss := by
  cases ln with
  | none => rfl
  | some l =>
    simp only [statusStep, h l rfl, Bool.false_eq_true, if_false]
    split_ifs <;> rfl

lemma statusStep_size_unchanged (st : StatusAcc) (ln : Option String)
    (h : ∀ l, ln = some l → startsWithStr l "VmSize:" = false) :
    (statusStep st ln).vm_size = st.vm_size := by
  cases ln with
  | none => rfl
  | some l =>
    simp only [statusStep, h l rfl, Bool.false_eq_true]
    split_ifs <;> first
    | rfl
    | contradiction

lemma statusStep_locked_unchanged (st : StatusAcc) (ln : Option String)
    (h : ∀ l, ln = some l → startsWithStr l "VmLck:" = false) :
    (statusStep st ln).vm_locked = st.vm_locked := by
  cases ln with
  | none => rfl
  | some l =>
    simp only [statusStep, h l rfl, Bool.false_eq_true]
    split_ifs <;> first
    | rfl
    | contradiction

lemma statusStep_threads_unchanged (st : StatusAcc) (ln : Option String)
    (h : ∀ l, ln = some l → startsWithStr l "Threads:" = false) :
    (statusStep st ln).threads = st.threads := by
  cases ln with
  | none => rfl
  | some l =>
    simp only [statusStep, h l rfl, Bool.false_eq_true]
    split_ifs <;> first
    | rfl
    | contradiction

lemma foldl_status_field (f : StatusAcc → Nat) (key : String)
    (hstep : ∀ st ln, (∀ l, ln = some l → startsWithStr l key = false) →
      f (statusStep st ln) = f st)
    (lines : List (Option String)) (st : StatusAcc)
    (h : ∀ l, some l ∈ lines → startsWithStr l key = false) :
    f (List.foldl statusStep st lines) = f st := by
  induction lines generalizing st with
  | nil => rfl
  | cons ln ls ih =>
    rw [List.foldl_cons, ih _ (fun l hl => h l (List.mem_cons_of_mem _ hl)),
      hstep st ln (fun l hl => h l (hl ▸ List.mem_cons_self _ _))]

/-- C5: `parse_status` extracts resident, virtual, and locked memory by
key-prefix match, converting kibibytes to bytes by a `u64` multiplication
by 1024; extracts the thread count as a plain integer; the concrete spec
example yields `vm_rss = 2097152`; and any field whose key is not found in
the file stays at its default 0, with no error raised. -/
theorem parse_status_contract :
    (∀ st l, startsWithStr l "VmRSS:" = true →
        statusStep st (some l) = { st with vm_rss := extract_kb l })
    ∧ (∀ st l, startsWithStr l "VmSize:" = true →
        statusStep st (some l) = { st with vm_size := extract_kb l })
    ∧ (∀ st l, startsWithStr l "VmLck:" = true →
        statusStep st (some l) = { st with vm_locked := extract_kb l })
    ∧ (∀ st l, startsWithStr l "Threads:" = true →
        statusStep st (some l) = { st with threads := parseThreads l })
    ∧ (∀ l tok n, (splitWhitespace l)[1]? = some tok →
        parseU64 tok = some n → extract_kb l = n * 1024 % 2 ^ 64)
    ∧ parse_status (some [some "VmRSS:\t   2048 kB"]) =
        .ok { vm_rss := 2097152, vm_size := 0, vm_locked := 0, threads := 0 }
    ∧ (∀ lines st', parse_status (some lines) = .ok st' →
        ((∀ l, some l ∈ lines → startsWithStr l "VmRSS:" = false) →
          st'.vm_rss = 0)
        ∧ ((∀ l, some l ∈ lines → startsWithStr l "VmSize:" = false) →
          st'.vm_size = 0)
        ∧ ((∀ l, some l ∈ lines → startsWithStr l "VmLck:" = false) →
          st'.vm_locked = 0)
        ∧ ((∀ l, some l ∈ lines → startsWithStr l "Threads:" = false) →
          st'.threads = 0)) := by
  refine ⟨?_, ?_, ?_, ?_, ?_, by rfl, ?_⟩
  · intro st l h
    simp [statusStep, h]
  · intro st l h
    have hR := prefixes_exclusive "VmSize:" "VmRSS:" l 2
      (by decide) (by decide) (by decide) h
    simp [statusStep, h, hR]
  · intro st l h
    have hR := prefixes_exclusive "VmLck:" "VmRSS:" l 2
      (by decide) (by decide) (by decide) h
    have hS := prefixes_exclusive "VmLck:" "VmSize:" l 2
      (by decide) (by decide) (by decide) h
    simp [statusStep, h, hR, hS]
  · intro st l h
    have hR := prefixes_exclusive "Threads:" "VmRSS:" l 0
      (by decide) (by decide) (by decide) h
    have hS := prefixes_exclusive "Threads:" "VmSize:" l 0
      (by decide) (by decide) (by decide) h
    have hL := prefixes_exclusive "Threads:" "VmLck:" l 0
      (by decide) (by decide) (by decide) h
    simp [statusStep, h, hR, hS, hL]
  · intro l tok n h1 h2
    simp [extract_kb, h1, h2]
  · intro lines st' hok
    have hst : st' = lines.foldl statusStep statusInit := by
      simpa [parse_status] using hok.symm
    subst hst
    exact ⟨fun h => foldl_status_field StatusAcc.vm_rss "VmRSS:"
        statusStep_rss_unchanged lines statusInit h,
      fun h => foldl_status_field StatusAcc.vm_size "VmSize:"
        statusStep_size_unchanged lines statusInit h,
      fun h => foldl_status_field StatusAcc.vm_locked "VmLck:"
        statusStep_locked_unchanged lines statusInit h,
      fun h => foldl_status_field StatusAcc.threads "Threads:"
        statusStep_threads_unchanged lines statusInit h⟩

/-- Witness for `parse_status_contract` at the spec's example line, a
thread-count line, and a file with none of the keys. -/
theorem parse_status_contract_witness :
    statusStep statusInit (some "VmRSS:\t   2048 kB") =
      { statusInit with vm_rss := extract_kb "VmRSS:\t   2048 kB" }
    ∧ extract_kb "VmRSS:\t   2048 kB" = 2048 * 1024 % 2 ^ 64
    ∧ statusStep statusInit (some "Threads:\t5") =
      { statusInit with threads := parseThreads "Threads:\t5" }
    ∧ statusInit.vm_rss = 0 := by
  obtain ⟨h1, h2, h3, h4, h5, h6, h7⟩ := parse_status_contract
  refine ⟨h1 statusInit _ (by decide), h5 _ "2048" 2048 (by decide) (by decide),
    h4 statusInit _ (by decide), ?_⟩
  exact (h7 [some "Foo:\t1"] statusInit (by rfl)).1
    (by
      intro l hl
      simp at hl
      subst hl
      decide)

/-- C6: for every dimension, `classify` applies the single rule
`usage / hard_limit` (exact rational comparison): critical at or above
9/10, warning at or above 7/10, else ok; and it is unknown — never ok —
whenever the hard limit is absent or the usage could not be determined,
regardless of the usage value; the spec's four test vectors behave as
prescribed. -/
theorem classify_contract :
    (∀ u h : Nat, 0 < h →
        ((classify (some u) (some h) = .critical ↔
            (9 : ℚ) / 10 ≤ (u : ℚ) / (h : ℚ))
         ∧ (classify (some u) (some h) = .warning ↔
            ((7 : ℚ) / 10 ≤ (u : ℚ) / (h : ℚ) ∧
             (u : ℚ) / (h : ℚ) < (9 : ℚ) / 10))
         ∧ (classify (some u) (some h) = .ok ↔
            (u : ℚ) / (h : ℚ) < (7 : ℚ) / 10)))
    ∧ (∀ u, classify u none = .unknown)
    ∧ (∀ h, classify none h = .unknown)
    ∧ (∀ u h, classify u h = .ok → u.isSome = true ∧ h.isSome = true)
    ∧ classify (some 900) (some 1000) = .critical
    ∧ classify (some 750) (some 1000) = .warning
    ∧ classify (some 100) (some 1000) = .ok := by
  refine ⟨?_, ?_, ?_, ?_, ?_, ?_, ?_⟩
  · intro u h _
    simp only [classify]
    split_ifs with h9 h7 <;>
      refine ⟨?_, ?_, ?_⟩ <;>
      simp_all <;>
      linarith
  · intro u
    cases u <;> rfl
  · intro h
    rfl
  · intro u h hok
    cases u <;> cases h <;> simp_all [classify]
  · simp [classify]
    norm_num
  · simp only [classify]
    norm_num
  · simp only [classify]
    norm_num

/-- Witness for `classify_contract` at the spec's test vector
usage = 900, hard limit = 1000. -/
theorem classify_contract_witness :
    classify (some 900) (some 1000) = .critical :=
  ((classify_contract.1 900 1000 (by norm_num)).1).mpr (by norm_num)

/-- Gather outcome used by the `inspect_pid_list` witness: every pid's
gather has failed. -/
def gatherGone : Nat → Except String ProcStats :=
  fun _ => .error "process gone"

/-- C9: for every requested pid list, the driver's output has exactly one
entry per requested pid, ordered by ascending pid, and a pid whose gather
failed appears as an entry carrying the failure, not omitted. -/
theorem inspect_pid_list_contract (g : Nat → Except String ProcStats)
    (pids : List Nat) :
    (inspect_pid_list g pids).length = pids.length
    ∧ ((inspect_pid_list g pids).map Prod.fst).Perm pids
    ∧ List.Sorted (· ≤ ·) ((inspect_pid_list g pids).map Prod.fst)
    ∧ (∀ p, p ∈ pids → (p, g p) ∈ inspect_pid_list g pids) := by
  have hmap : (inspect_pid_list g pids).map Prod.fst =
      pids.insertionSort (· ≤ ·) := by
    simp [inspect_pid_list, Function.comp_def]
  refine ⟨?_, ?_, ?_, ?_⟩
  · rw [inspect_pid_list, List.length_map,
      (List.perm_insertionSort (· ≤ ·) pids).length_eq]
  · rw [hmap]
    exact List.perm_insertionSort (· ≤ ·) pids
  · rw [hmap]
    exact List.sorted_insertionSort (· ≤ ·) pids
  · intro p hp
    have : p ∈ pids.insertionSort (· ≤ ·) :=
      (List.perm_insertionSort (· ≤ ·) pids).mem_iff.mpr hp
    exact List.mem_map.mpr ⟨p, this, rfl⟩

/-- Witness for `inspect_pid_list_contract` on the pid list `[3, 1]` where
every gather fails: both requested pids appear, as failure entries. -/
theorem inspect_pid_list_contract_witness :
    (inspect_pid_list gatherGone [3, 1]).length = 2
    ∧ (1, gatherGone 1) ∈ inspect_pid_list gatherGone [3, 1]
    ∧ (3, gatherGone 3) ∈ inspect_pid_list gatherGone [3, 1] :=
  ⟨(inspect_pid_list_contract gatherGone [3, 1]).1,
   (inspect_pid_list_contract gatherGone [3, 1]).2.2.2 1 (by decide),
   (inspect_pid_list_contract gatherGone [3, 1]).2.2.2 3 (by decide)⟩

/-- Distinct parent pids appearing in a snapshot. -/
def parentSet (snap : List (Nat × Nat)) : Finset Nat :=
  (snap.map Prod.snd).toFinset

/-- Work measure of a traversal state: queue length plus the total number
of child edges of parents not yet visited.  Each `ptreeGo` step decreases
it by exactly one, which is what makes the visited-set a termination
cap. -/
def measureF (snap : List (Nat × Nat)) (visited queue : List Nat) : Nat :=
  queue.length + ∑ q ∈ parentSet snap \ visited.toFinset, (children snap q).length

lemma children_subset_pids (snap : List (Nat × Nat)) (p c : Nat)
    (h : c ∈ children snap p) : c ∈ snap.map Prod.fst := by
  simp only [children, List.mem_map, List.mem_filter] at h
  obtain ⟨e, ⟨he, _⟩, rfl⟩ := h
  exact List.mem_map.mpr ⟨e, he, rfl⟩

lemma children_eq_nil (snap : List (Nat × Nat)) (p : Nat)
    (h : p ∉ snap.map Prod.snd) : children snap p = [] := by
  rw [children]
  have hfil : snap.filter (fun e => e.2 == p) = [] := by
    rw [List.filter_eq_nil_iff]
    intro e he
    simp only [beq_iff_eq]
    intro hep
    exact h (List.mem_map.mpr ⟨e, he, hep⟩)
  rw [hfil]
  rfl

lemma length_children_cons (e : Nat × Nat) (snap : List (Nat × Nat))
    (q : Nat) :
    (children (e :: snap) q).length =
      (if e.2 = q then 1 else 0) + (children snap q).length := by
  by_cases h : e.2 = q <;> simp [children, List.filter_cons, h] <;> omega

lemma sum_children_le (snap : List (Nat × Nat)) (T : Finset Nat) :
    (∑ q ∈ T, (children snap q).length) ≤ snap.length := by
  induction snap with
  | nil => simp [children]
  | cons e s ih =>
    calc ∑ q ∈ T, (children (e :: s) q).length
        = ∑ q ∈ T, ((if e.2 = q then 1 else 0) + (children s q).length) :=
          Finset.sum_congr rfl (fun q _ => length_children_cons e s q)
      _ = (∑ q ∈ T, if e.2 = q then 1 else 0) +
            ∑ q ∈ T, (children s q).length := Finset.sum_add_distrib
      _ ≤ 1 + s.length := by
          have h1 : (∑ q ∈ T, if e.2 = q then 1 else 0) ≤ 1 := by
            rw [Finset.sum_ite_eq T e.2 (fun _ => 1)]
            split_ifs <;> omega
          omega
      _ = (e :: s).length := by
          simp [Nat.add_comm]

lemma measureF_cons_visited (snap : List (Nat × Nat)) (visited rest : List Nat)
    (p : Nat) :
    measureF snap visited (p :: rest) = measureF snap visited rest + 1 := by
  simp [measureF]
  omega

lemma measureF_visit (snap : List (Nat × Nat)) (visited rest : List Nat)
    (p : Nat) (hp : p ∉ visited) :
    measureF snap (p :: visited) (rest ++ children snap p) + 1 =
      measureF snap visited (p :: rest) := by
  simp only [measureF, List.length_append, List.length_cons]
  rw [List.toFinset_cons, Finset.sdiff_insert]
  by_cases hpp : p ∈ parentSet snap \ visited.toFinset
  · rw [← Finset.add_sum_erase _ _ hpp]
    omega
  · have h1 : (parentSet snap \ visited.toFinset).erase p =
        parentSet snap \ visited.toFinset :=
      Finset.erase_eq_of_not_mem hpp
    have h2 : children snap p = [] := by
      apply children_eq_nil
      intro hmem
      exact hpp (Finset.mem_sdiff.mpr
        ⟨List.mem_toFinset.mpr hmem, fun hv => hp (List.mem_toFinset.mp hv)⟩)
    rw [h1, h2]
    simp only [List.length_nil, Nat.add_zero]
    omega

lemma ptreeGo_stable (snap : List (Nat × Nat)) :
    ∀ fuel visited queue, measureF snap visited queue ≤ fuel →
      ptreeGo snap (fuel + 1) visited queue = ptreeGo snap fuel visited queue := by
  intro fuel
  induction fuel with
  | zero =>
    intro visited queue h
    have hq : queue = [] := by
      cases queue with
      | nil => rfl
      | cons p rest => simp [measureF_cons_visited] at h
    subst hq
    rfl
  | succ f ih =>
    intro visited queue h
    cases queue with
    | nil => rfl
    | cons p rest =>
      simp only [ptreeGo]
      split_ifs with hp
      · exact ih visited rest (by rw [measureF_cons_visited] at h; omega)
      · exact ih (p :: visited) (rest ++ children snap p)
          (by have := measureF_visit snap visited rest p hp; omega)

lemma ptreeGo_add (snap : List (Nat × Nat)) (k : Nat) :
    ∀ fuel visited queue, measureF snap visited queue ≤ fuel →
      ptreeGo snap (fuel + k) visited queue = ptreeGo snap fuel visited queue := by
  induction k with
  | zero =>
    intro fuel visited queue _
    rfl
  | succ j ih =>
    intro fuel visited queue h
    have step : fuel + (j + 1) = (fuel + j) + 1 := rfl
    rw [step, ptreeGo_stable snap (fuel + j) visited queue
      (le_trans h (Nat.le_add_right _ _)), ih fuel visited queue h]

lemma measureF_init (snap : List (Nat × Nat)) (root : Nat) :
    measureF snap [] [root] ≤ snap.length + 1 := by
  simp only [measureF, List.length_cons, List.length_nil, List.toFinset_nil,
    Finset.sdiff_empty]
  have := sum_children_le snap (parentSet snap)
  omega

lemma ptreeGo_nodup (snap : List (Nat × Nat)) :
    ∀ fuel visited queue, visited.Nodup →
      (ptreeGo snap fuel visited queue).Nodup := by
  intro fuel
  induction fuel with
  | zero =>
    intro v q h
    exact List.nodup_reverse.mpr h
  | succ f ih =>
    intro v q h
    cases q with
    | nil => exact List.nodup_reverse.mpr h
    | cons p rest =>
      simp only [ptreeGo]
      split_ifs with hp
      · exact ih v rest h
      · exact ih (p :: v) _ (List.nodup_cons.mpr ⟨hp, h⟩)

lemma ptreeGo_subset (snap : List (Nat × Nat)) (P : Nat → Prop)
    (hP : ∀ x ∈ snap.map Prod.fst, P x) :
    ∀ fuel visited queue, (∀ x ∈ visited, P x) → (∀ x ∈ queue, P x) →
      ∀ x ∈ ptreeGo snap fuel visited queue, P x := by
  intro fuel
  induction fuel with
  | zero =>
    intro v q hv hq x hx
    exact hv x (List.mem_reverse.mp hx)
  | succ f ih =>
    intro v q hv hq x hx
    cases q with
    | nil => exact hv x (List.mem_reverse.mp hx)
    | cons p rest =>
      simp only [ptreeGo] at hx
      split_ifs at hx with hp
      · exact ih v rest hv (fun y hy => hq y (List.mem_cons_of_mem _ hy)) x hx
      · refine ih (p :: v) _ ?_ ?_ x hx
        · intro y hy
          rcases List.mem_cons.mp hy with rfl | hy
          · exact hq y (List.mem_cons_self _ _)
          · exact hv y hy
        · intro y hy
          rcases List.mem_append.mp hy with hy | hy
          · exact hq y (List.mem_cons_of_mem _ hy)
          · exact hP y (children_subset_pids snap p y hy)

/-- C8: the tree builder terminates with a stable result on every
enumeration snapshot — supplying the traversal any fuel beyond the
`build_ptree` budget never changes the output, so the worklist provably
drains; the visited-set caps the traversal at the number of distinct pids
seen (the result has no duplicates, contains only the root and enumerated
pids, and is no longer than the distinct-pid count); and snapshots with
cyclic parent edges, such as a self-referential parent or a two-cycle,
still yield a result. -/
theorem ptree_terminates :
    (∀ snap root k, ptreeGo snap (snap.length + 1 + k) [] [root] =
        build_ptree snap root)
    ∧ (∀ snap root, (build_ptree snap root).Nodup
        ∧ (∀ x ∈ build_ptree snap root, x = root ∨ x ∈ snap.map Prod.fst)
        ∧ (build_ptree snap root).length ≤
            ((root :: snap.map Prod.fst).dedup).length)
    ∧ build_ptree [(5, 5)] 5 = [5]
    ∧ build_ptree [(2, 1), (1, 2)] 1 = [1, 2] := by
  have hsub : ∀ snap (root : Nat), ∀ x ∈ build_ptree snap root,
      x = root ∨ x ∈ snap.map Prod.fst := by
    intro snap root x hx
    refine ptreeGo_subset snap (fun y => y = root ∨ y ∈ snap.map Prod.fst)
      (fun y hy => Or.inr hy) _ [] [root] ?_ ?_ x hx
    · intro y hy
      cases hy
    · intro y hy
      rcases List.mem_cons.mp hy with rfl | hy
      · exact Or.inl rfl
      · cases hy
  have hnd : ∀ snap (root : Nat), (build_ptree snap root).Nodup :=
    fun snap root => ptreeGo_nodup snap _ [] [root] List.nodup_nil
  refine ⟨?_, ?_, by rfl, by rfl⟩
  · intro snap root k
    exact ptreeGo_add snap k (snap.length + 1) [] [root]
      (measureF_init snap root)
  · intro snap root
    refine ⟨hnd snap root, hsub snap root, ?_⟩
    calc (build_ptree snap root).length
        = (build_ptree snap root).toFinset.card :=
          (List.toFinset_card_of_nodup (hnd snap root)).symm
      _ ≤ ((root :: snap.map Prod.fst).toFinset).card := by
          apply Finset.card_le_card
          intro x hx
          rw [List.mem_toFinset] at hx ⊢
          rcases hsub snap root x hx with rfl | hx
          · exact List.mem_cons_self _ _
          · exact List.mem_cons_of_mem _ hx
      _ = ((root :: snap.map Prod.fst).dedup).length := List.card_toFinset _

/-- Witness for `ptree_terminates`: extra fuel does not change the result
on the self-loop snapshot, and the root is in its own subtree. -/
theorem ptree_terminates_witness :
    ptreeGo [(5, 5)] 4 [] [5] = build_ptree [(5, 5)] 5
    ∧ ((5 : Nat) = 5 ∨ (5 : Nat) ∈ ([(5, 5)] : List (Nat × Nat)).map Prod.fst) :=
  ⟨ptree_terminates.1 [(5, 5)] 5 2,
   (ptree_terminates.2.1 [(5, 5)] 5).2.1 5 (by decide)⟩

end Plafond
